import Mathlib

/-!
Verification development for the next-intl-analyzer repository.

The repository contains two evolving variants of the analyzer core; following
the design notes of the specification, the most elaborated variant is taken as
authoritative: the parser with the per-file variable binding table
(`ParseSourceFile` with `translationVars`), the constants file that defines
`MinWordsForSentence`, and the analyzer with the global hardcoded-string
handling (`generateOverallResults` with the duplicate check).

Modelling conventions:
- Go strings are modelled as Lean `String` / `List Char`; the sources and all
  concrete inputs used below are ASCII, where Go's byte length and Lean's
  character length coincide.
- Go maps are modelled as association lists with insert-or-overwrite
  (`mapInsert`); Go's unspecified iteration order is the list order, and every
  property proved below is insensitive to that order.
- Go regexes are modelled by dedicated scanners.  Each scanned pattern consists
  of literals and greedy repetitions of single-character classes, followed by a
  mandatory character outside the class, so the backtracking search of the
  regexp engine is forced to the maximal run at every step and the scanners
  below are exact; leftmost-match search is the position-by-position scan.
- The Go code computes `int(float64(n) * C)` for threshold constants `C`.
  This is modelled as the floor of `n` times the exact binary64 value of `C`
  (for `C = 0.75` that is exactly `3 * n / 4`); the rounding of the final
  float64 multiplication is not modelled.  No claim settled in this file
  depends on those branches.
-/

/-- One observation of a translation key (Go struct `Translation` in
`analyzer.go`; the Go field `Type` is rendered `type`). -/
structure Translation where
  Key : String
  File : String
  Line : Nat
  Used : Bool
  Declared : Bool
  Locale : String
  type : String
deriving Repr, DecidableEq

/-! ## Go string primitives -/

/-- Whitespace recognized by Go's `\s` regexp class and (on ASCII text) by
`unicode.IsSpace`: space, tab, newline, carriage return, vertical tab, form
feed. -/
def isGoSpace (c : Char) : Bool :=
  c = ' ' || c = '\t' || c = '\n' || c = '\r' || c = Char.ofNat 11 || c = Char.ofNat 12

/-- Character class `\w` of Go regexp: `[0-9A-Za-z_]`. -/
def isWordChar (c : Char) : Bool :=
  c.isAlpha || c.isDigit || c = '_'

/-- ASCII letter, the class `[a-zA-Z]`. -/
def isAsciiLetter (c : Char) : Bool :=
  c.isAlpha

/-- A single or double quote, the class `['"]`. -/
def isQuoteChar (c : Char) : Bool :=
  c = Char.ofNat 39 || c = Char.ofNat 34

/-- Substring search over character lists (Go `strings.Contains`). -/
def listContainsSub : List Char → List Char → Bool
  | s, sub =>
    match s with
    | [] => sub.isEmpty
    | _ :: t => sub.isPrefixOf s || listContainsSub t sub

/-- Go `strings.Contains`. -/
def strContainsSub (s sub : String) : Bool :=
  listContainsSub s.data sub.data

/-- Go `strings.HasPrefix`. -/
def strStartsWith (s p : String) : Bool :=
  p.data.isPrefixOf s.data

/-- Go `strings.HasSuffix`. -/
def strEndsWith (s p : String) : Bool :=
  p.data.isSuffixOf s.data

/-- Go `strings.TrimSpace` (ASCII whitespace). -/
def goTrimSpace (s : String) : String :=
  ⟨((s.data.dropWhile isGoSpace).reverse.dropWhile isGoSpace).reverse⟩

/-- Go `strings.Count s c` for a single-character `c` (non-overlapping count of
a one-character substring is the number of occurrences of the character). -/
def strCountChar (s : String) (c : Char) : Nat :=
  (s.data.filter (fun d => d = c)).length

/-- Go `strings.ContainsAny`. -/
def strContainsAnyOf (s : String) (chars : List Char) : Bool :=
  s.data.any (fun c => chars.contains c)

/-- Go `strings.ContainsRune`. -/
def strContainsChar (s : String) (c : Char) : Bool :=
  s.data.contains c

/-- Go `strings.EqualFold`, exact on ASCII strings (Unicode simple folding
beyond ASCII is not modelled; every word compared below is ASCII). -/
def strEqualFold (a b : String) : Bool :=
  a.data.map Char.toLower == b.data.map Char.toLower

/-- Fields of a string split around whitespace runs (Go `strings.Fields`). -/
def goFieldsAux : List Char → List (List Char)
  | [] => []
  | c :: t =>
    if isGoSpace c then goFieldsAux t
    else
      let w := t.takeWhile (fun d => ¬ isGoSpace d)
      (c :: w) :: goFieldsAux (t.drop w.length)
termination_by l => l.length
decreasing_by
  · simp
  · simp [List.length_drop]; omega

/-- Go `strings.Fields`. -/
def goFields (s : String) : List (List Char) :=
  goFieldsAux s.data

/-- Go `strings.ToLower` on ASCII. -/
def strToLower (s : String) : String :=
  ⟨s.data.map Char.toLower⟩

/-- Go `strings.ToUpper` on ASCII. -/
def strToUpper (s : String) : String :=
  ⟨s.data.map Char.toUpper⟩

/-! ## Association lists standing in for Go maps -/

/-- Insert-or-overwrite, the semantics of `m[k] = v` on a Go map.  The
overwritten entry is removed so that iterating the list visits each key once,
like ranging over a Go map. -/
def mapInsert (m : List (String × α)) (k : String) (v : α) : List (String × α) :=
  (k, v) :: m.filter (fun p => ! (p.1 == k))

/-! ## Constants (source file `constants.go`, the variant defining
`MinWordsForSentence`) -/

/-- Common short UI words that should be translated. -/
def ShortUIWords : List String :=
  ["OK", "No", "Yes", "Cancel", "Save", "Edit", "Delete", "Add", "New",
   "Back", "Next", "Prev", "Close", "Open", "Help", "Info", "Error",
   "Loading", "Done", "Submit", "Reset", "Clear", "Search", "Filter",
   "Sort", "View", "Hide", "Show", "More", "Less", "All", "None"]

/-- Technical patterns that indicate code/technical content. -/
def TechnicalPatterns : List String :=
  ["className", "id=", "href=", "src=", "alt=", "title=", "type=", "value=",
   "placeholder=", "aria-", "data-", "role=", "tabindex=", "disabled=",
   "readonly=", "required=", "maxlength=", "minlength=", "pattern=",
   "onClick", "onChange", "onSubmit", "onLoad", "onBlur", "onFocus", "onKey",
   "useState", "useEffect", "useCallback", "useMemo", "useRef", "useContext",
   "import", "export", "const", "let", "var", "function", "return", "if", "else",
   "for", "while", "switch", "case", "default", "break", "continue",
   "true", "false", "null", "undefined", "NaN", "Infinity",
   "props", "state", "ref", "key", "index", "item", "element", "component",
   "handler", "callback", "event", "e.target", "e.preventDefault",
   "children", "className=", "style=", "id=", "name=", "onClick=",
   "onChange=", "onSubmit=", "width=", "height=", "size=", "color=",
   ".js", ".jsx", ".ts", ".tsx", ".css", ".scss", ".json", ".md",
   "http://", "https://", "www.", ".com", ".org", ".net",
   "console.log", "debugger", "throw", "catch", "finally", "try",
   "new ", "instanceof", "typeof", "delete", "in", "of",
   ">", "</", "<", "/>", "=\x7b", "\x7b\x7d", "()", "[]",
   "await", "async", "class", "super", "this", "prototype", "constructor",
   "extends", "implements", "interface", "enum", "public", "private", "protected",
   "=>\x7b", "()=>", "=>(", "=>\x7b\x7d", "...props", "...rest",
   "className=\x7b`", "className=\x7b"]

/-- UI/UX patterns that indicate user-facing content. -/
def UIPatterns : List String :=
  ["Welcome", "Hello", "Goodbye", "Thank you", "Please", "Sorry",
   "Success", "Error", "Warning", "Info", "Loading", "Processing",
   "Click", "Press", "Enter", "Select", "Choose", "Browse",
   "Download", "Upload", "Share", "Like", "Follow", "Subscribe",
   "Sign in", "Sign up", "Log in", "Log out", "Register", "Login",
   "Profile", "Settings", "Preferences", "Account", "Dashboard",
   "Home", "About", "Contact", "Help", "Support", "FAQ",
   "Terms", "Privacy", "Policy", "License", "Copyright",
   "Created by", "Developed by", "Powered by", "Made with", "© ", "Copyright",
   "All rights reserved", "Submit", "Save", "Cancel", "Delete", "Edit", "Remove",
   "Create", "Update", "Read more", "Learn more", "View details", "Continue",
   "Previous", "Next", "Back to", "Return to", "Go to", "Navigate to"]

/-- Common punctuation marks that might appear in user-facing text. -/
def CommonPunctuation : List String :=
  ["!", "?", ".", ",", ":", ";", "-", "—", "–", "…"]

/-- Minimum length for text to be considered for translation. -/
def MinTextLength : Nat := 3

/-- Character-count band limits for the alphabetic-ratio checks. -/
def LongTextThreshold : Nat := 10

/-- Character-count band limit between short and medium text. -/
def MediumTextThreshold : Nat := 5

/-- Minimum words for a phrase to be considered a sentence. -/
def MinWordsForSentence : Nat := 3

/-- `int(float64(n) * 0.6)`: floor of `n` times the exact binary64 value of
the constant `0.6`, which is `5404319552844595 / 2^53`. -/
def intMul06 (n : Nat) : Nat :=
  n * 5404319552844595 / 9007199254740992

/-- `int(float64(n) * 0.75)`: `0.75` is the dyadic `3/4`, so the product is
exact and truncation is floor. -/
def intMul075 (n : Nat) : Nat :=
  n * 3 / 4

/-! ## Catalog Key Extractor (`extractKeys`, `ParseTranslationFile`) -/

/-! A parsed JSON-equivalent document: mappings, sequences, and scalars (Go
`interface{}` after `json.Unmarshal`; all scalar kinds collapse to `prim`
because `extractKeys` never inspects them). -/

mutual

inductive JValue where
  | obj : JFields → JValue
  | arr : JItems → JValue
  | prim : JValue
deriving Repr, DecidableEq

inductive JFields where
  | nil : JFields
  | cons : String → JValue → JFields → JFields
deriving Repr, DecidableEq

inductive JItems where
  | nil : JItems
  | cons : JValue → JItems → JItems
deriving Repr, DecidableEq

end

/-- The fields of a mapping as an association list. -/
def JFields.toList : JFields → List (String × JValue)
  | .nil => []
  | .cons k v rest => (k, v) :: rest.toList

/-- The items of a sequence as a list. -/
def JItems.toList : JItems → List JValue
  | .nil => []
  | .cons v rest => v :: rest.toList

/-- `currentKey` computation of `extractKeys`: the key itself at the top
level, otherwise `prefix + "." + key`. -/
def joinKey (pre key : String) : String :=
  if pre = "" then key else pre ++ "." ++ key

/-! `extractKeys` (parser.go): depth-first flattening of a document into
dotted key paths.  For a mapping, every key is emitted and traversal recurses
only into values that are themselves mappings; for a sequence, items that are
mappings are traversed beneath the synthetic segment `prefix[index]` and other
items are skipped; scalars contribute nothing. -/

mutual

def extractKeys : JValue → String → List String
  | .obj fs, pre => extractKeysFields fs pre
  | .arr its, pre => extractKeysItems its pre 0
  | .prim, _ => []

def extractKeysFields : JFields → String → List String
  | .nil, _ => []
  | .cons k v rest, pre =>
    let currentKey := joinKey pre k
    (currentKey ::
      (match v with
       | .obj fs2 => extractKeysFields fs2 currentKey
       | _ => []))
    ++ extractKeysFields rest pre

def extractKeysItems : JItems → String → Nat → List String
  | .nil, _, _ => []
  | .cons v rest, pre, i =>
    (match v with
     | .obj fs2 => extractKeysFields fs2 (pre ++ "[" ++ toString i ++ "]")
     | _ => [])
    ++ extractKeysItems rest pre (i + 1)

end

/-- The declared-key map built by `ParseTranslationFile` from the extracted
keys of one catalog file. -/
def buildDeclared (filePath : String) (keys : List String) : List (String × Translation) :=
  keys.foldl
    (fun m key =>
      mapInsert m key
        { Key := key, File := filePath, Line := 0, Used := false,
          Declared := true, Locale := "", type := "" })
    []

/-- A catalog file presented to `ParseTranslationFile`: its path and its parse
outcome (`none` models an unreadable file or malformed JSON; a non-mapping top
level also fails because the Go code unmarshals into `map[string]interface{}`). -/
structure CatalogFile where
  path : String
  doc : Option JValue
deriving Repr, DecidableEq

/-- `ParseTranslationFile`: fails with an error for a malformed document,
otherwise returns the declared-key map of the flattened document. -/
def parseTranslationFile (f : CatalogFile) : Except String (List (String × Translation)) :=
  match f.doc with
  | none => .error ("error parsing JSON in " ++ f.path)
  | some d =>
    match d with
    | .obj fs => .ok (buildDeclared f.path (extractKeys (.obj fs) ""))
    | _ => .error ("error parsing JSON in " ++ f.path)

/-- `analyzeDeclaredTranslations` (analyzer.go): parse every catalog file,
skip files whose parse fails (warning only), and merge the rest into one
declared-key map. -/
def analyzeDeclaredTranslations (files : List CatalogFile) : List (String × Translation) :=
  files.foldl
    (fun allDeclared file =>
      match parseTranslationFile file with
      | .error _ => allDeclared
      | .ok declared => declared.foldl (fun m p => mapInsert m p.1 p.2) allDeclared)
    []

/-! ## Reconciler (`analyzeLocale`, hardcoded-string part of
`generateOverallResults`) -/

/-- Per-locale analysis results (Go struct `LocaleAnalysisResult`; the
`HardcodedStrings` field stays empty in `analyzeLocale` and is omitted). -/
structure LocaleAnalysisResult where
  Locale : String
  UnusedTranslations : List Translation
  UndeclaredTranslations : List Translation
  TotalTranslations : Nat
  UsedTranslations : Nat
deriving Repr, DecidableEq

/-- `analyzeLocale` (analyzer.go): stamp the locale onto the declared records,
report as unused every declared entry whose key is absent from the used map,
and as undeclared every used entry of type `translation_call` whose key is
absent from the declared map. -/
def analyzeLocale (locale : String) (declared0 used : List (String × Translation)) :
    LocaleAnalysisResult :=
  let declared := declared0.map (fun p => (p.1, { p.2 with Locale := locale }))
  { Locale := locale
    UnusedTranslations :=
      (declared.filter (fun p => (used.lookup p.1).isNone)).map (fun p => p.2)
    UndeclaredTranslations :=
      (used.filter (fun p =>
          p.2.type = "translation_call" ∧ (declared.lookup p.1).isNone)).map
        (fun p => { p.2 with Locale := locale, Declared := false })
    TotalTranslations := declared.length
    UsedTranslations := used.length }

/-- One step of the duplicate-suppressing accumulation of hardcoded strings in
`generateOverallResults`: a record of type `hardcoded_string` is appended only
when no record with the same key text, file and line is already present. -/
def addHardcoded (allHardcoded : List Translation) (t : Translation) : List Translation :=
  if t.type = "hardcoded_string" then
    if allHardcoded.any (fun e => e.Key = t.Key ∧ e.File = t.File ∧ e.Line = t.Line) then
      allHardcoded
    else
      allHardcoded ++ [t]
  else
    allHardcoded

/-- The hardcoded-string collection loop of `generateOverallResults`: fold
`addHardcoded` over the records of every parsed source file. -/
def collectHardcodedStrings (fileResults : List (List Translation)) : List Translation :=
  fileResults.foldl (fun acc used => used.foldl addHardcoded acc) []

/-! ## Regex scanners for `ParseSourceFile`

Each Go regex used by the parser is a sequence of literals, ordered
alternations of literals, and greedy repetitions of single-character classes
in which every repetition is followed by a mandatory character outside its
class.  For such patterns the backtracking search is forced: every repetition
matches its maximal run, and no two branches of an alternation are prefixes of
the same text, so committing to the matching branch is exact.  The leftmost
(`FindStringSubmatch`) and leftmost-iterated (`FindAllStringSubmatch`)
semantics are the position-by-position scans `scanFirst` and `scanAll`. -/

/-- First match of an anchored matcher over all start positions (Go
`FindStringSubmatch`, keeping the submatches only). -/
def scanFirst (matchAt : List Char → Option α) : List Char → Option α
  | [] => none
  | s@(_ :: t) =>
    match matchAt s with
    | some r => some r
    | none => scanFirst matchAt t

/-- All non-overlapping matches, each scan resuming after the matched span
(Go `FindAllStringSubmatch`).  The matcher returns its submatches and the
total length of the match, which is always at least 1 here.  The recursion is
on a fuel argument initialized to the input length; every step strips at
least one character, so the fuel is never exhausted before the input is. -/
def scanAllAux (matchAt : List Char → Option (α × Nat)) : Nat → List Char → List α
  | 0, _ => []
  | _ + 1, [] => []
  | fuel + 1, c :: t =>
    match matchAt (c :: t) with
    | some (cap, n) => cap :: scanAllAux matchAt fuel (t.drop (n - 1))
    | none => scanAllAux matchAt fuel t

/-- All non-overlapping matches of an anchored matcher, left to right. -/
def scanAll (matchAt : List Char → Option (α × Nat)) (s : List Char) : List α :=
  scanAllAux matchAt s.length s

/-- Anchored match of ``fn\(['"]([^'"]+)['"]\)`` (the shared tail of the
`useTranslations`/`getTranslations` regexes): the literal function name, `(`,
a quote, a nonempty run free of quotes (the captured namespace or key), a
quote, `)`. -/
def matchCallAt (fn : String) (s : List Char) : Option String :=
  let pre := fn.data ++ ['(']
  if pre.isPrefixOf s then
    match s.drop pre.length with
    | q :: s2 =>
      if isQuoteChar q then
        let content := s2.takeWhile (fun c => ¬ isQuoteChar c)
        if content.isEmpty then none
        else
          match s2.drop content.length with
          | q2 :: r2 =>
            if isQuoteChar q2 then
              match r2 with
              | ')' :: _ => some ⟨content⟩
              | _ => none
            else none
          | [] => none
      else none
    | [] => none
  else none

/-- ``useTranslations\(['"]([^'"]+)['"]\)`` applied to a line. -/
def useTranslationsMatch (line : String) : Option String :=
  scanFirst (matchCallAt "useTranslations") line.data

/-- ``getTranslations\(['"]([^'"]+)['"]\)`` applied to a line. -/
def getTranslationsMatch (line : String) : Option String :=
  scanFirst (matchCallAt "getTranslations") line.data

/-- Anchored ``(?:const|let|var)``: the branches share no prefixes, so at most
one applies. -/
def parseKeyword (s : List Char) : Option Nat :=
  if ("const".data).isPrefixOf s then some 5
  else if ("let".data).isPrefixOf s then some 3
  else if ("var".data).isPrefixOf s then some 3
  else none

/-- Anchored ``(?:const|let|var)\s+(\w+)\s*=\s*``, the head of the variable
assignment regex; returns the captured variable name and the length matched.
Every run is forced maximal: `\s+` is followed by `\w`, `\w+` by `\s` or `=`,
and each `\s*` by a non-space. -/
def parseVarHead (s : List Char) : Option (String × Nat) :=
  (parseKeyword s).bind fun k =>
  let s1 := s.drop k
  let sp1 := s1.takeWhile isGoSpace
  if sp1.isEmpty then none else
  let s2 := s1.drop sp1.length
  let ident := s2.takeWhile isWordChar
  if ident.isEmpty then none else
  let s3 := s2.drop ident.length
  let sp2 := s3.takeWhile isGoSpace
  match s3.drop sp2.length with
  | '=' :: s5 =>
    let sp3 := s5.takeWhile isGoSpace
    some (⟨ident⟩, k + sp1.length + ident.length + sp2.length + 1 + sp3.length)
  | _ => none

/-- Anchored variable assignment regex
``(?:const|let|var)\s+(\w+)\s*=\s*(?:useTranslations|getTranslations)\(['"]([^'"]+)['"]\)``,
returning the captured variable name and namespace. -/
def matchVarAt (s : List Char) : Option (String × String) :=
  (parseVarHead s).bind fun p =>
  match matchCallAt "useTranslations" (s.drop p.2) with
  | some ns => some (p.1, ns)
  | none =>
    match matchCallAt "getTranslations" (s.drop p.2) with
    | some ns => some (p.1, ns)
    | none => none

/-- `varAssignmentPattern.FindStringSubmatch` applied to a line. -/
def varAssignmentMatch (line : String) : Option (String × String) :=
  scanFirst matchVarAt line.data

/-- Anchored head ``(?:const|let|var)\s+\{\s*(\w+)[^\}]*\}\s*=\s*`` of the
destructured assignment regex.  The run `[^\}]*` is forced to stop at the
first `}`, which the pattern then consumes. -/
def parseDestructHead (s : List Char) : Option (String × Nat) :=
  (parseKeyword s).bind fun k =>
  let s1 := s.drop k
  let sp1 := s1.takeWhile isGoSpace
  if sp1.isEmpty then none else
  match s1.drop sp1.length with
  | c :: s3 =>
    if c = Char.ofNat 123 then
      let sp2 := s3.takeWhile isGoSpace
      let s4 := s3.drop sp2.length
      let ident := s4.takeWhile isWordChar
      if ident.isEmpty then none else
      let s5 := s4.drop ident.length
      let mid := s5.takeWhile (fun c => ¬ (c = Char.ofNat 125))
      match s5.drop mid.length with
      | c2 :: s7 =>
        if c2 = Char.ofNat 125 then
          let sp3 := s7.takeWhile isGoSpace
          match s7.drop sp3.length with
          | '=' :: s9 =>
            let sp4 := s9.takeWhile isGoSpace
            some (⟨ident⟩,
              k + sp1.length + 1 + sp2.length + ident.length + mid.length + 1 +
                sp3.length + 1 + sp4.length)
          | _ => none
        else none
      | [] => none
    else none
  | [] => none

/-- Anchored destructured assignment regex
``(?:const|let|var)\s+\{\s*(\w+)[^\}]*\}\s*=\s*(?:useTranslations|getTranslations)\(['"]([^'"]+)['"]\)``. -/
def matchDestructAt (s : List Char) : Option (String × String) :=
  (parseDestructHead s).bind fun p =>
  match matchCallAt "useTranslations" (s.drop p.2) with
  | some ns => some (p.1, ns)
  | none =>
    match matchCallAt "getTranslations" (s.drop p.2) with
    | some ns => some (p.1, ns)
    | none => none

/-- `destructuredPattern.FindStringSubmatch` applied to a line. -/
def destructuredMatch (line : String) : Option (String × String) :=
  scanFirst matchDestructAt line.data

/-- Anchored generic translation call regex ``(\w+)\s*\(['"]([^'"]+)['"]\)``,
returning the identifier, the key, and the match length. -/
def matchGenericAt (s : List Char) : Option ((String × String) × Nat) :=
  let ident := s.takeWhile isWordChar
  if ident.isEmpty then none else
  let s1 := s.drop ident.length
  let sp := s1.takeWhile isGoSpace
  match s1.drop sp.length with
  | '(' :: s3 =>
    match s3 with
    | q :: s4 =>
      if isQuoteChar q then
        let key := s4.takeWhile (fun c => ¬ isQuoteChar c)
        if key.isEmpty then none else
        match s4.drop key.length with
        | q2 :: r =>
          if isQuoteChar q2 then
            match r with
            | ')' :: _ =>
              some ((⟨ident⟩, ⟨key⟩),
                ident.length + sp.length + 1 + 1 + key.length + 1 + 1)
            | _ => none
          else none
        | [] => none
      else none
    | [] => none
  | _ => none

/-- `genericCallsPattern.FindAllStringSubmatch` applied to a line: the
`(identifier, key)` pairs of all generic calls, left to right. -/
def genericMatches (line : String) : List (String × String) :=
  scanAll matchGenericAt line.data

/-- Anchored ``(?:rich|markup|raw|has)``: tried in the pattern's order; no two
branches are prefixes of the same text. -/
def parseMethodName (s : List Char) : Option Nat :=
  if ("rich".data).isPrefixOf s then some 4
  else if ("markup".data).isPrefixOf s then some 6
  else if ("raw".data).isPrefixOf s then some 3
  else if ("has".data).isPrefixOf s then some 3
  else none

/-- Anchored extended API regex
``(\w+)\.(?:rich|markup|raw|has)\s*\(['"]([^'"]+)['"]\)``. -/
def matchExtendedAt (s : List Char) : Option ((String × String) × Nat) :=
  let ident := s.takeWhile isWordChar
  if ident.isEmpty then none else
  match s.drop ident.length with
  | '.' :: s2 =>
    (parseMethodName s2).bind fun m =>
    let s3 := s2.drop m
    let sp := s3.takeWhile isGoSpace
    match s3.drop sp.length with
    | '(' :: s5 =>
      match s5 with
      | q :: s6 =>
        if isQuoteChar q then
          let key := s6.takeWhile (fun c => ¬ isQuoteChar c)
          if key.isEmpty then none else
          match s6.drop key.length with
          | q2 :: r =>
            if isQuoteChar q2 then
              match r with
              | ')' :: _ =>
                some ((⟨ident⟩, ⟨key⟩),
                  ident.length + 1 + m + sp.length + 1 + 1 + key.length + 1 + 1)
              | _ => none
            else none
          | [] => none
        else none
      | [] => none
    | _ => none
  | _ => none

/-- `extendedApiPattern.FindAllStringSubmatch` applied to a line. -/
def extendedMatches (line : String) : List (String × String) :=
  scanAll matchExtendedAt line.data

/-! ## Hardcoded-text span patterns -/

/-- Anchored tag-name alternation ``(?:h[1-6]|p|li|span|div|button|a|label|td|th)``:
branches dispatch on their first character (for `l` and `t` the second
character separates the two candidates), so at most one branch applies. -/
def parseTagName (s : List Char) : Option Nat :=
  match s with
  | [] => none
  | c :: rest =>
    if c = 'h' then
      match rest with
      | d :: _ => if '1' ≤ d ∧ d ≤ '6' then some 2 else none
      | [] => none
    else if c = 'p' then some 1
    else if c = 'l' then
      if ("i".data).isPrefixOf rest then some 2
      else if ("abel".data).isPrefixOf rest then some 5
      else none
    else if c = 's' then
      if ("pan".data).isPrefixOf rest then some 4 else none
    else if c = 'd' then
      if ("iv".data).isPrefixOf rest then some 3 else none
    else if c = 'b' then
      if ("utton".data).isPrefixOf rest then some 6 else none
    else if c = 'a' then some 1
    else if c = 't' then
      if ("d".data).isPrefixOf rest then some 2
      else if ("h".data).isPrefixOf rest then some 2
      else none
    else none

/-- The character class `[^<>{}\n]` of the tag-body capture groups. -/
def isTagBodyChar (c : Char) : Bool :=
  ¬ (c = '<' ∨ c = '>' ∨ c = Char.ofNat 123 ∨ c = Char.ofNat 125 ∨ c = '\n')

/-- Anchored first hardcoded-text regex
``<(?:tags)\b[^>]*>([^<>{}\n]+[a-zA-Z][^<>{}\n]*)</(?:tags)>``.
The capture group tiles the maximal `[^<>{}\n]` run after `>` (its third part
is greedy and must be followed by `<`, which the class excludes), so the group
matches iff the run has length at least 2 with a letter after the first
character, and the capture is the whole run.  `\b` holds iff the character
after the tag name is not a word character, the tag name ending in one. -/
def matchSpanTagsAt (s : List Char) : Option (String × Nat) :=
  match s with
  | '<' :: s1 =>
    (parseTagName s1).bind fun tl =>
    let s2 := s1.drop tl
    let boundaryOk : Bool := match s2 with | c :: _ => ¬ isWordChar c | [] => true
    if boundaryOk then
      let attrs := s2.takeWhile (fun c => ¬ (c = '>'))
      match s2.drop attrs.length with
      | '>' :: s3 =>
        let body := s3.takeWhile isTagBodyChar
        if body.length ≥ 2 ∧ (body.drop 1).any isAsciiLetter then
          match s3.drop body.length with
          | '<' :: '/' :: s4 =>
            (parseTagName s4).bind fun tl2 =>
            match s4.drop tl2 with
            | '>' :: _ =>
              some (⟨body⟩, 1 + tl + attrs.length + 1 + body.length + 2 + tl2 + 1)
            | _ => none
          | _ => none
        else none
      | _ => none
    else none
  | _ => none

/-- Anchored attribute-name alternation
``(?:title|alt|placeholder|aria-label|description)`` (branches pairwise
prefix-incompatible). -/
def parseAttrName (s : List Char) : Option Nat :=
  if ("title".data).isPrefixOf s then some 5
  else if ("alt".data).isPrefixOf s then some 3
  else if ("placeholder".data).isPrefixOf s then some 11
  else if ("aria-label".data).isPrefixOf s then some 10
  else if ("description".data).isPrefixOf s then some 11
  else none

/-- The character class `[^"'<>]` of the attribute-value capture group. -/
def isAttrValChar (c : Char) : Bool :=
  ¬ (isQuoteChar c ∨ c = '<' ∨ c = '>')

/-- Anchored second hardcoded-text regex
``(?:title|alt|placeholder|aria-label|description)=["']([^"'<>]{3,}[a-zA-Z][^"'<>]*)["']``.
The capture tiles the maximal `[^"'<>]` run after the opening quote, so it
matches iff the run has length at least 4 with a letter after the first three
characters, and the capture is the whole run. -/
def matchSpanAttrAt (s : List Char) : Option (String × Nat) :=
  (parseAttrName s).bind fun al =>
  match s.drop al with
  | '=' :: q :: s2 =>
    if isQuoteChar q then
      let val := s2.takeWhile isAttrValChar
      if val.length ≥ 4 ∧ (val.drop 3).any isAsciiLetter then
        match s2.drop val.length with
        | q2 :: _ => if isQuoteChar q2 then some (⟨val⟩, al + 2 + val.length + 1) else none
        | [] => none
      else none
    else none
  | _ => none

/-- Anchored third hardcoded-text regex ``>([^<>{}\n]{3,}[a-zA-Z][^<>{}\n]{3,})<``.
The capture tiles the maximal `[^<>{}\n]` run after `>`, so it matches iff the
run has length at least 7 with a letter at an index between 3 and length-4,
and the capture is the whole run. -/
def matchSpanGtAt (s : List Char) : Option (String × Nat) :=
  match s with
  | '>' :: s1 =>
    let body := s1.takeWhile isTagBodyChar
    if body.length ≥ 7 ∧ ((body.drop 3).take (body.length - 6)).any isAsciiLetter then
      match s1.drop body.length with
      | '<' :: _ => some (⟨body⟩, 1 + body.length + 1)
      | _ => none
    else none
  | _ => none

/-- All candidate spans of a line, in the order of the `hardcodedPatterns`
slice. -/
def hardcodedMatches (line : String) : List String :=
  scanAll matchSpanTagsAt line.data ++ scanAll matchSpanAttrAt line.data ++
    scanAll matchSpanGtAt line.data

/-! ## Hardcoded-text classification (`isNumeric`, `isUserFacingText`, and the
per-span rejection chain of `ParseSourceFile`) -/

/-- `isNumeric`: the digit count reaches half the length. -/
def isNumeric (text : String) : Bool :=
  decide ((text.data.filter Char.isDigit).length ≥ text.length / 2)

/-- The character set of the `ContainsAny` code check in `isUserFacingText`. -/
def codeChars : List Char :=
  [Char.ofNat 123, Char.ofNat 125, '[', ']', '(', ')', '<', '>', '=', '+', '*', '/']

/-- The punctuation set `".,!?:;-—–…"` counted by `isUserFacingText`. -/
def sentencePunct : String := ".,!?:;-—–…"

/-- `isUserFacingText` (the binding-table parser variant).  Notes on the
translation: `text[0] != strings.ToUpper(text)[0]` compares the first
character with its upper-cased form; in the multi-word block the inner
sentence-shape conditional returns `true` and control otherwise falls through
to `return true`, so the whole block is constantly `true` once the word count
reaches `MinWordsForSentence`. -/
def isUserFacingText (text : String) : Bool :=
  if 2 ≤ text.length ∧ text.length ≤ 4 ∧
      ShortUIWords.any (fun word => strEqualFold text word) then true
  else if text.length < MinTextLength then false
  else if strContainsAnyOf text codeChars then false
  else if (! strContainsSub text " ") &&
      (strContainsChar text '_' ||
        ((! (strToLower text == text)) &&
          (match text.data with | c :: _ => ! (c == c.toUpper) | [] => false))) then false
  else if TechnicalPatterns.any (fun p => strContainsSub text p) then false
  else if UIPatterns.any (fun p => strContainsSub text p) then true
  else if (goFields text).length ≥ MinWordsForSentence then true
  else
    let alphaCount := (text.data.filter isAsciiLetter).length
    let spaceCount := (text.data.filter (fun c => c = ' ')).length
    let punctCount := (text.data.filter (fun c => strContainsChar sentencePunct c)).length
    let nonAlphaCount := text.length - alphaCount - spaceCount - punctCount
    if text.length > LongTextThreshold then
      decide (alphaCount ≥ intMul06 text.length ∧ (goFields text).length ≥ MinWordsForSentence)
    else if text.length > MediumTextThreshold then
      decide (alphaCount ≥ intMul06 text.length ∧ nonAlphaCount < text.length / 3)
    else
      decide (alphaCount ≥ intMul075 text.length)

/-- The `continue` chain applied to each trimmed candidate span in
`ParseSourceFile` before `isUserFacingText` is consulted, as one disjunction
in the order of the source.  Single-character `strings.Contains` calls are
rendered with `strContainsChar`; `Contains(text, "(") && Contains(text, "'")`
checks a parenthesis together with a single-quote character. -/
def shouldSkipSpan (text : String) : Bool :=
  (strContainsSub text "t(" || strContainsSub text "<" || strContainsSub text ">") ||
  (strContainsChar text '(' && strContainsChar text (Char.ofNat 39)) ||
  ((strContainsSub text "." && decide (text.length < 20)) ||
    (decide (text.length < 20) && ¬ strContainsSub text " " &&
      (strContainsSub text "button" || strContainsSub text "navigation" ||
       strContainsSub text "title" || strContainsSub text "welcome" ||
       strContainsSub text "about" || strContainsSub text "description" ||
       strContainsSub text "undeclaredKey"))) ||
  (strContainsSub text "import" || strContainsSub text "export" ||
   strContainsSub text "function" || strContainsSub text "const") ||
  (strStartsWith (goTrimSpace text) "\x7b" && strEndsWith (goTrimSpace text) "\x7d") ||
  (strStartsWith text "use" || strStartsWith text "get") ||
  (strStartsWith text "/" || strContainsSub text "http" ||
   strContainsSub text "www." || strContainsSub text ".com") ||
  (¬ strContainsSub text " " && decide (text.length < 15)) ||
  (text = "name" || text = "value" || text = "data" || text = "type" ||
   text = "label" || text = "content" || text = "format" || text = "default") ||
  (decide (strCountChar text '=' > 1) || decide (strCountChar text ':' > 1)) ||
  (TechnicalPatterns.any (fun p => strContainsSub text p)) ||
  (strStartsWith text "/*" || strStartsWith text "//" || strContainsSub text "*/") ||
  ((strContainsSub text "button." || strContainsSub text "navigation." ||
    strContainsSub text "title" || strContainsSub text "welcome" ||
    strContainsSub text "about" || strContainsSub text "description") &&
    decide (text.length < 30) && ¬ strContainsSub text " ") ||
  (decide (text.length < MinTextLength) || goTrimSpace text = "") ||
  (strContainsChar text '=' || strContainsChar text '+' || strContainsChar text '-') ||
  (isNumeric text) ||
  (decide (text.length = 1) && ¬ CommonPunctuation.contains text)

/-! ## ParseSourceFile -/

/-- The per-file scan state of `ParseSourceFile`: the running default
namespace, the variable binding table, the used-key map, and the
hardcoded-string map merged into the result at end of file. -/
structure ScanState where
  currentNamespace : String
  translationVars : List (String × String)
  used : List (String × Translation)
  untranslated : List (String × Translation)
deriving Repr, DecidableEq

/-- The loop body shared verbatim by the generic-call and extended-API loops
of `ParseSourceFile`: resolve the identifier (the conventional `t` uses the
default namespace, other identifiers must be in the binding table, anything
else is skipped), discard empty keys, and qualify dot-free keys with a
nonempty namespace. -/
def emitForMatch (filePath : String) (lineNum : Nat) (currentNamespace : String)
    (translationVars : List (String × String)) (m : String × String) :
    Option Translation :=
  let varName := m.1
  let key := m.2
  if key = "" then none
  else
    match (if varName = "t" then some currentNamespace
           else translationVars.lookup varName) with
    | none => none
    | some ns =>
      let fullKey := if ns ≠ "" ∧ ¬ (strContainsChar key '.') then ns ++ "." ++ key else key
      some { Key := fullKey, File := filePath, Line := lineNum, Used := true,
             Declared := false, Locale := "", type := "translation_call" }

/-- Store the record of one match, if any, into the used map. -/
def applyEmit (filePath : String) (lineNum : Nat) (st : ScanState) (m : String × String) :
    ScanState :=
  match emitForMatch filePath lineNum st.currentNamespace st.translationVars m with
  | none => st
  | some r => { st with used := mapInsert st.used r.Key r }

/-- Classify one candidate span: trim it, drop it if any rejection of the
`continue` chain fires, otherwise store it as a hardcoded string iff
`isUserFacingText` accepts it. -/
def processSpan (filePath : String) (lineNum : Nat) (st : ScanState) (raw : String) :
    ScanState :=
  let text := goTrimSpace raw
  if shouldSkipSpan text then st
  else if isUserFacingText text then
    let tr : Translation :=
      { Key := text, File := filePath, Line := lineNum, Used := true,
        Declared := false, Locale := "", type := "hardcoded_string" }
    { st with untranslated := mapInsert st.untranslated text tr }
  else st

/-- The loop body of `ParseSourceFile` for one line: the four binding forms
are attempted in order and each ends the line with `continue`; otherwise the
generic calls, the extended API calls, and the hardcoded spans of the line are
processed. -/
def processLine (filePath : String) (st : ScanState) (lineNum : Nat) (line : String) :
    ScanState :=
  match useTranslationsMatch line with
  | some ns => { st with currentNamespace := ns }
  | none =>
  match getTranslationsMatch line with
  | some ns => { st with currentNamespace := ns }
  | none =>
  match varAssignmentMatch line with
  | some p => { st with translationVars := mapInsert st.translationVars p.1 p.2 }
  | none =>
  match destructuredMatch line with
  | some p => { st with translationVars := mapInsert st.translationVars p.1 p.2 }
  | none =>
    let st1 := (genericMatches line).foldl (applyEmit filePath lineNum) st
    let st2 := (extendedMatches line).foldl (applyEmit filePath lineNum) st1
    (hardcodedMatches line).foldl (processSpan filePath lineNum) st2

/-- Process the lines of a file in order, numbering them from `lineNum`. -/
def runLines (filePath : String) (st : ScanState) (lineNum : Nat) :
    List String → ScanState
  | [] => st
  | l :: ls => runLines filePath (processLine filePath st lineNum l) (lineNum + 1) ls

/-- The initial scan state of `ParseSourceFile`. -/
def initState : ScanState :=
  { currentNamespace := "", translationVars := [], used := [], untranslated := [] }

/-- `ParseSourceFile` on the lines of a file: scan every line from state
`initState` with 1-based line numbers, then merge the hardcoded-string map
into the used map and return it. -/
def parseSourceFile (filePath : String) (lines : List String) :
    List (String × Translation) :=
  let fin := runLines filePath initState 1 lines
  fin.untranslated.foldl (fun used p => mapInsert used p.1 p.2) fin.used

/-! ## Helper lemmas -/

lemma lookup_filter_ne {α : Type} (m : List (String × α)) (k k' : String) (h : k ≠ k') :
    (m.filter (fun p => ! (p.1 == k'))).lookup k = m.lookup k := by
  induction m with
  | nil => rfl
  | cons p rest ih =>
    rw [List.filter_cons]
    cases hp : (p.1 == k') with
    | true =>
      have hp' : p.1 = k' := by simpa using hp
      have hkp : (k == p.1) = false := by
        simp [hp']
        exact h
      simp [hp, List.lookup, hkp, ih]
    | false =>
      by_cases hkp : k = p.1
      · have hb : (k == p.1) = true := by simp [hkp]
        simp only [Bool.not_false, if_true, List.lookup, hb]
      · have hb : (k == p.1) = false := by simp [hkp]
        simp only [Bool.not_false, if_true, List.lookup, hb, ih]

lemma lookup_mapInsert_self {α : Type} (m : List (String × α)) (k : String) (v : α) :
    (mapInsert m k v).lookup k = some v := by
  simp [mapInsert, List.lookup]

lemma lookup_mapInsert_ne {α : Type} (m : List (String × α)) (k k' : String) (v : α)
    (h : k ≠ k') : (mapInsert m k' v).lookup k = m.lookup k := by
  have hk : (k == k') = false := by simp [h]
  simp only [mapInsert, List.lookup, hk]
  exact lookup_filter_ne m k k' h

/-! ## Claim theorems -/

/-- C7: a candidate span whose text has length 2 to 4 inclusive and equals,
case-insensitively, one of the fixed short UI words is accepted as user-facing
by the hardcoded-text classifier, regardless of the alphabetic-ratio test or
any later heuristic (the short-UI-word check is the first branch of
`isUserFacingText` and returns immediately). -/
theorem isUserFacingText_accepts_short_ui_word (text word : String)
    (hw : word ∈ ShortUIWords) (h2 : 2 ≤ text.length) (h4 : text.length ≤ 4)
    (hf : strEqualFold text word = true) :
    isUserFacingText text = true := by
  have hany : ShortUIWords.any (fun w => strEqualFold text w) = true :=
    List.any_eq_true.mpr ⟨word, hw, hf⟩
  unfold isUserFacingText
  rw [if_pos ⟨h2, h4, hany⟩]

/-- Witness for C7 at the concrete span `"ok"` against the list word `"OK"`. -/
theorem isUserFacingText_accepts_short_ui_word_witness :
    isUserFacingText "ok" = true :=
  isUserFacingText_accepts_short_ui_word "ok" "OK" (by decide) (by decide) (by decide)
    (by decide)

/-- C1: at every call site whose literal key contains a dot, the record the
Usage Extractor emits (if any) carries exactly the literal key, whatever the
default namespace and the binding table are — `emitForMatch` is the loop body
`ParseSourceFile` applies to every recognized call site. -/
theorem emitForMatch_dotted_key_verbatim (filePath : String) (lineNum : Nat)
    (ns : String) (vars : List (String × String)) (ident key : String)
    (hdot : strContainsChar key '.' = true) :
    Option.all (fun r => r.Key == key)
      (emitForMatch filePath lineNum ns vars (ident, key)) = true := by
  unfold emitForMatch
  by_cases hk : key = ""
  · simp [hk]
  · rw [if_neg hk]
    cases hres : (if ident = "t" then some ns else vars.lookup ident) with
    | none => rfl
    | some ns' => simp [hdot]

/-- Witness for C1 at the concrete call site `t("a.b")` under namespace
`Admin`. -/
theorem emitForMatch_dotted_key_verbatim_witness :
    Option.all (fun r => r.Key == "a.b")
      (emitForMatch "f.tsx" 3 "Admin" [] ("t", "a.b")) = true :=
  emitForMatch_dotted_key_verbatim "f.tsx" 3 "Admin" [] "t" "a.b" (by decide)

/-- C3: a parenthesized-string-argument call whose identifier is neither the
conventional `t` nor a name in the binding table yields no translation_call
record — `emitForMatch`, the loop body applied to every such call, skips it. -/
theorem emitForMatch_unknown_identifier_ignored (filePath : String) (lineNum : Nat)
    (ns : String) (vars : List (String × String)) (ident key : String)
    (hid : ident ≠ "t") (hlk : vars.lookup ident = none) :
    emitForMatch filePath lineNum ns vars (ident, key) = none := by
  unfold emitForMatch
  by_cases hk : key = ""
  · simp [hk]
  · simp [hk, hid, hlk]

/-- Witness for C3 at the concrete call `format("hello")` with an empty
binding table. -/
theorem emitForMatch_unknown_identifier_ignored_witness :
    emitForMatch "f.tsx" 7 "Common" [] ("format", "hello") = none :=
  emitForMatch_unknown_identifier_ignored "f.tsx" 7 "Common" [] "format" "hello"
    (by decide) (by rfl)

/-- Two hardcoded findings share their identity when key text, file and line
all agree; `generateOverallResults` suppresses such duplicates. -/
def sameTriple (a b : Translation) : Prop :=
  a.Key = b.Key ∧ a.File = b.File ∧ a.Line = b.Line

lemma addHardcoded_pairwise (acc : List Translation) (t : Translation)
    (h : acc.Pairwise (fun a b => ¬ sameTriple a b)) :
    (addHardcoded acc t).Pairwise (fun a b => ¬ sameTriple a b) := by
  unfold addHardcoded
  split
  · split
    · exact h
    · rename_i hty hany
      rw [List.pairwise_append]
      refine ⟨h, List.pairwise_singleton _ _, ?_⟩
      intro a ha b hb
      simp only [List.mem_singleton] at hb
      subst hb
      intro hcon
      apply hany
      exact List.any_eq_true.mpr ⟨a, ha, by
        simp only [decide_eq_true_eq]
        exact ⟨hcon.1, hcon.2.1, hcon.2.2⟩⟩
  · exact h

lemma foldl_addHardcoded_pairwise (ts : List Translation) :
    ∀ acc : List Translation, acc.Pairwise (fun a b => ¬ sameTriple a b) →
      (ts.foldl addHardcoded acc).Pairwise (fun a b => ¬ sameTriple a b) := by
  induction ts with
  | nil => intro acc h; exact h
  | cons t rest ih =>
    intro acc h
    exact ih (addHardcoded acc t) (addHardcoded_pairwise acc t h)

/-- C8: in the final HardcodedStrings collection produced by
`generateOverallResults`, no two records share the same (text, file, line)
triple, whatever per-file parse results feed the accumulation. -/
theorem collectHardcodedStrings_no_duplicate_triples
    (fileResults : List (List Translation)) :
    (collectHardcodedStrings fileResults).Pairwise (fun a b => ¬ sameTriple a b) := by
  unfold collectHardcodedStrings
  have main : ∀ (rs : List (List Translation)) (acc : List Translation),
      acc.Pairwise (fun a b => ¬ sameTriple a b) →
      (rs.foldl (fun acc used => used.foldl addHardcoded acc) acc).Pairwise
        (fun a b => ¬ sameTriple a b) := by
    intro rs
    induction rs with
    | nil => intro acc h; exact h
    | cons ts rest ih =>
      intro acc h
      exact ih (ts.foldl addHardcoded acc) (foldl_addHardcoded_pairwise ts acc h)
  exact main fileResults [] List.Pairwise.nil

/-- C9: `analyzeDeclaredTranslations` skips a catalog file whose parse fails
and returns the merge of the remaining files unchanged. -/
theorem analyzeDeclaredTranslations_skips_malformed (pre post : List CatalogFile)
    (f : CatalogFile) (e : String) (h : parseTranslationFile f = .error e) :
    analyzeDeclaredTranslations (pre ++ f :: post) =
      analyzeDeclaredTranslations (pre ++ post) := by
  unfold analyzeDeclaredTranslations
  rw [List.foldl_append, List.foldl_append, List.foldl_cons, h]

/-- Witness for C9: a malformed catalog between two well-formed ones
contributes nothing. -/
theorem analyzeDeclaredTranslations_skips_malformed_witness :
    analyzeDeclaredTranslations
      [⟨"en/messages.json", some (.obj (.cons "A" .prim .nil))⟩,
       ⟨"en/broken.json", none⟩,
       ⟨"en/more.json", some (.obj (.cons "B" .prim .nil))⟩] =
    analyzeDeclaredTranslations
      [⟨"en/messages.json", some (.obj (.cons "A" .prim .nil))⟩,
       ⟨"en/more.json", some (.obj (.cons "B" .prim .nil))⟩] :=
  analyzeDeclaredTranslations_skips_malformed
    [⟨"en/messages.json", some (.obj (.cons "A" .prim .nil))⟩]
    [⟨"en/more.json", some (.obj (.cons "B" .prim .nil))⟩]
    ⟨"en/broken.json", none⟩ ("error parsing JSON in " ++ "en/broken.json") rfl

lemma lookup_map_locale (locale : String)
    (d : List (String × Translation)) (k : String) :
    (d.map (fun p => (p.1, { p.2 with Locale := locale }))).lookup k =
      (d.lookup k).map (fun tr => { tr with Locale := locale }) := by
  induction d with
  | nil => rfl
  | cons q rest ih =>
    cases hq : (k == q.1) with
    | true => simp [List.lookup, hq]
    | false => simp [List.lookup, hq, ih]

/-- C6: `analyzeLocale` reports as unused exactly the declared entries whose
key string is absent from the used map, and as undeclared exactly the used
entries of type translation_call whose key string is absent from the declared
map; in particular for the catalog `{"A":{"b":"x"}}` and an empty used set,
both `A` and `A.b` are reported unused. -/
theorem analyzeLocale_set_differences :
    (∀ (locale : String) (d u : List (String × Translation)) (t : Translation),
       t ∈ (analyzeLocale locale d u).UnusedTranslations ↔
         ∃ q, q ∈ d ∧ u.lookup q.1 = none ∧ t = { q.2 with Locale := locale }) ∧
    (∀ (locale : String) (d u : List (String × Translation)) (t : Translation),
       t ∈ (analyzeLocale locale d u).UndeclaredTranslations ↔
         ∃ q, q ∈ u ∧ q.2.type = "translation_call" ∧ d.lookup q.1 = none ∧
           t = { q.2 with Locale := locale, Declared := false }) ∧
    ("A" ∈ (analyzeLocale "en"
        (buildDeclared "messages/en.json"
          (extractKeys (.obj (.cons "A" (.obj (.cons "b" .prim .nil)) .nil)) ""))
        []).UnusedTranslations.map (fun t => t.Key) ∧
     "A.b" ∈ (analyzeLocale "en"
        (buildDeclared "messages/en.json"
          (extractKeys (.obj (.cons "A" (.obj (.cons "b" .prim .nil)) .nil)) ""))
        []).UnusedTranslations.map (fun t => t.Key)) := by
  refine ⟨?_, ?_, ?_⟩
  · intro locale d u t
    simp only [analyzeLocale]
    constructor
    · intro h
      rcases List.mem_map.mp h with ⟨p, hpf, rfl⟩
      rcases List.mem_filter.mp hpf with ⟨hpd, hcond⟩
      rcases List.mem_map.mp hpd with ⟨q, hq, rfl⟩
      refine ⟨q, hq, ?_, rfl⟩
      simpa [Option.isNone_iff_eq_none] using hcond
    · rintro ⟨q, hq, hlk, rfl⟩
      apply List.mem_map.mpr
      refine ⟨(q.1, { q.2 with Locale := locale }), ?_, rfl⟩
      apply List.mem_filter.mpr
      exact ⟨List.mem_map.mpr ⟨q, hq, rfl⟩, by simp [hlk]⟩
  · intro locale d u t
    simp only [analyzeLocale]
    constructor
    · intro h
      rcases List.mem_map.mp h with ⟨p, hpf, rfl⟩
      rcases List.mem_filter.mp hpf with ⟨hpu, hcond⟩
      have hc := of_decide_eq_true hcond
      refine ⟨p, hpu, hc.1, ?_, rfl⟩
      have := hc.2
      rw [lookup_map_locale] at this
      simpa [Option.isNone_iff_eq_none, Option.map_eq_none'] using this
    · rintro ⟨q, hq, hty, hlk, rfl⟩
      apply List.mem_map.mpr
      refine ⟨q, ?_, rfl⟩
      apply List.mem_filter.mpr
      refine ⟨hq, ?_⟩
      apply decide_eq_true
      exact ⟨hty, by rw [lookup_map_locale]; simp [hlk]⟩
  · constructor <;> decide

/-- C5 counterexample: in the parsed catalog `{"A":[{"b":"x"}]}` the claim
would have `extractKeys` continue beneath the sequence and emit `A[0].b`, but
the mapping case never recurses into sequence values, so only `A` is
emitted. -/
theorem extractKeys_sequence_under_mapping_cex :
    extractKeys
        (.obj (.cons "A" (.arr (.cons (.obj (.cons "b" .prim .nil)) .nil)) .nil)) "" =
      ["A"] ∧
    ¬ ("A[0].b" ∈ extractKeys
        (.obj (.cons "A" (.arr (.cons (.obj (.cons "b" .prim .nil)) .nil)) .nil)) "") := by
  constructor
  · decide
  · decide

lemma fields_key_mem : ∀ (fs : JFields) (pre k : String) (v : JValue),
    (k, v) ∈ fs.toList → joinKey pre k ∈ extractKeysFields fs pre
  | .nil, pre, k, v, h => by simp [JFields.toList] at h
  | .cons k' v' rest, pre, k, v, h => by
    simp only [JFields.toList, List.mem_cons] at h
    rcases h with h | h
    · injection h with h1 h2
      subst h1
      cases v' <;> simp [extractKeysFields]
    · have ihm := fields_key_mem rest pre k v h
      cases v' <;> simp [extractKeysFields, ihm]

lemma fields_nested_mem : ∀ (fs : JFields) (pre k p : String) (fs2 : JFields),
    (k, .obj fs2) ∈ fs.toList → p ∈ extractKeysFields fs2 (joinKey pre k) →
    p ∈ extractKeysFields fs pre
  | .nil, pre, k, p, fs2, h, _ => by simp [JFields.toList] at h
  | .cons k' v' rest, pre, k, p, fs2, h, hp => by
    simp only [JFields.toList, List.mem_cons] at h
    rcases h with h | h
    · injection h with h1 h2
      subst h1
      subst h2
      simp [extractKeysFields, hp]
    · have ihm := fields_nested_mem rest pre k p fs2 h hp
      cases v' <;> simp [extractKeysFields, ihm]

lemma items_nested_mem : ∀ (its : JItems) (pre p : String) (i j : Nat) (fs2 : JFields),
    its.toList.get? i = some (.obj fs2) →
    p ∈ extractKeysFields fs2 (pre ++ "[" ++ toString (j + i) ++ "]") →
    p ∈ extractKeysItems its pre j
  | .nil, pre, p, i, j, fs2, h, _ => by simp [JItems.toList] at h
  | .cons v rest, pre, p, i, j, fs2, h, hp => by
    cases i with
    | zero =>
      simp only [JItems.toList, List.get?] at h
      injection h with h1
      subst h1
      simp only [extractKeysItems]
      apply List.mem_append_left
      simpa using hp
    | succ i' =>
      simp only [JItems.toList, List.get?] at h
      have hp' : p ∈ extractKeysFields fs2 (pre ++ "[" ++ toString ((j + 1) + i') ++ "]") := by
        have heq : j + (i' + 1) = (j + 1) + i' := by omega
        rwa [heq] at hp
      have ihm := items_nested_mem rest pre p i' (j + 1) fs2 h hp'
      cases v <;> simp [extractKeysItems, ihm]

/-- C5 amended: `extractKeys` emits the dotted path of every mapping key at
every depth reachable through nested mapping values (intermediate nodes
included, not just leaves); a mapping value that is a sequence contributes
only its own key and is not traversed; when `extractKeys` is applied directly
to a sequence, elements that are mappings are traversed beneath the synthetic
segment `prefix[index]` and scalar elements contribute no key. -/
theorem extractKeys_amended_characterization :
    (∀ (fs : JFields) (pre k : String) (v : JValue), (k, v) ∈ fs.toList →
       joinKey pre k ∈ extractKeys (.obj fs) pre) ∧
    (∀ (fs fs2 : JFields) (pre k p : String), (k, .obj fs2) ∈ fs.toList →
       p ∈ extractKeys (.obj fs2) (joinKey pre k) → p ∈ extractKeys (.obj fs) pre) ∧
    (∀ (its : JItems) (pre p : String) (i : Nat) (fs2 : JFields),
       its.toList.get? i = some (.obj fs2) →
       p ∈ extractKeys (.obj fs2) (pre ++ "[" ++ toString i ++ "]") →
       p ∈ extractKeys (.arr its) pre) ∧
    (∀ (k : String) (its : JItems) (rest : JFields) (pre : String),
       extractKeys (.obj (.cons k (.arr its) rest)) pre =
         joinKey pre k :: extractKeys (.obj rest) pre) ∧
    (∀ (rest : JItems) (pre : String) (i : Nat),
       extractKeysItems (.cons .prim rest) pre i = extractKeysItems rest pre (i + 1)) := by
  refine ⟨?_, ?_, ?_, ?_, ?_⟩
  · intro fs pre k v h
    simpa only [extractKeys] using fields_key_mem fs pre k v h
  · intro fs fs2 pre k p h hp
    simp only [extractKeys] at hp ⊢
    exact fields_nested_mem fs pre k p fs2 h hp
  · intro its pre p i fs2 h hp
    simp only [extractKeys] at hp ⊢
    apply items_nested_mem its pre p i 0 fs2 h
    simpa using hp
  · intro k its rest pre
    simp [extractKeys, extractKeysFields]
  · intro rest pre i
    simp [extractKeysItems]

/-- Witness for the amended C5 at the one-field catalog `{"A":"x"}`. -/
theorem extractKeys_amended_characterization_witness :
    joinKey "" "A" ∈ extractKeys (.obj (.cons "A" .prim .nil)) "" :=
  extractKeys_amended_characterization.1 (.cons "A" .prim .nil) "" "A" .prim
    (by simp [JFields.toList])

lemma processLine_useT (filePath : String) (st : ScanState) (n : Nat) (l v : String)
    (h : useTranslationsMatch l = some v) :
    processLine filePath st n l = { st with currentNamespace := v } := by
  unfold processLine
  rw [h]

lemma processLine_getT (filePath : String) (st : ScanState) (n : Nat) (l v : String)
    (h1 : useTranslationsMatch l = none) (h2 : getTranslationsMatch l = some v) :
    processLine filePath st n l = { st with currentNamespace := v } := by
  unfold processLine
  rw [h1, h2]

/-- C10: a line matching the direct `useTranslations("X")` or
`getTranslations("X")` pattern only rebinds the default namespace and emits
nothing — the match ends the per-line processing, so neither translation_call
nor hardcoded_string records arise from that line. -/
theorem processLine_direct_match_short_circuits (filePath : String) (st : ScanState)
    (n : Nat) (l v : String)
    (h : useTranslationsMatch l = some v ∨
      (useTranslationsMatch l = none ∧ getTranslationsMatch l = some v)) :
    processLine filePath st n l = { st with currentNamespace := v } := by
  rcases h with h | ⟨h1, h2⟩
  · exact processLine_useT filePath st n l v h
  · exact processLine_getT filePath st n l v h1 h2

/-- Witness for C10 at the one-line source
`const t = useTranslations("Common"); t("button.save")`: nothing but the
default namespace changes, in particular the `t("button.save")` call on the
same line emits no record. -/
theorem processLine_direct_match_short_circuits_witness :
    processLine "f.tsx" initState 1
        "const t = useTranslations(\"Common\"); t(\"button.save\")" =
      { initState with currentNamespace := "Common" } :=
  processLine_direct_match_short_circuits "f.tsx" initState 1
    "const t = useTranslations(\"Common\"); t(\"button.save\")" "Common"
    (Or.inl (by decide))

/-- C2 evaluation: the variable-assignment binding pattern itself matches the
line `const adminT = getTranslations("Admin")`, but the direct
`getTranslations(...)` pattern matches the same line first and ends it, so
`adminT` is never bound and the later call `adminT("key")` emits nothing: the
parse of the two-line file yields no record at all. -/
theorem parseSourceFile_assignment_binding_dead :
    varAssignmentMatch "const adminT = getTranslations(\"Admin\")" =
      some ("adminT", "Admin") ∧
    parseSourceFile "f.tsx"
      ["const adminT = getTranslations(\"Admin\")", "adminT(\"key\")"] = [] := by
  constructor
  · decide
  · decide

/-- The translation_call record `ParseSourceFile` stores for a resolved key:
its fields are determined by the file, the line number and the
fully-qualified key alone. -/
def usedRecord (filePath : String) (lineNum : Nat) (fullKey : String) : Translation :=
  { Key := fullKey, File := filePath, Line := lineNum, Used := true,
    Declared := false, Locale := "", type := "translation_call" }

lemma scanFirst_some {α : Type} (matchAt : List Char → Option α) (s : List Char) (r : α)
    (h : scanFirst matchAt s = some r) : ∃ n, matchAt (s.drop n) = some r := by
  induction s with
  | nil => simp [scanFirst] at h
  | cons c t ih =>
    rw [scanFirst] at h
    cases hm : matchAt (c :: t) with
    | some r' =>
      rw [hm] at h
      exact ⟨0, by simpa [hm] using h⟩
    | none =>
      rw [hm] at h
      obtain ⟨n, hn⟩ := ih h
      exact ⟨n + 1, by simpa using hn⟩

lemma scanFirst_none {α : Type} (matchAt : List Char → Option α) (s : List Char)
    (h : scanFirst matchAt s = none) (hnil : matchAt [] = none) :
    ∀ n, matchAt (s.drop n) = none := by
  induction s with
  | nil => intro n; simpa using hnil
  | cons c t ih =>
    rw [scanFirst] at h
    cases hm : matchAt (c :: t) with
    | some r' => rw [hm] at h; exact absurd h (by simp)
    | none =>
      rw [hm] at h
      intro n
      cases n with
      | zero => simpa using hm
      | succ n' => simpa using ih h n'

lemma matchCallAt_nil (fn : String) : matchCallAt fn [] = none := by
  have hpre : ((fn.data ++ ['(']).isPrefixOf ([] : List Char)) = false := by
    rw [Bool.eq_false_iff]
    intro hp
    have := List.isPrefixOf_iff_prefix.mp hp
    simp at this
  simp [matchCallAt, hpre]

lemma matchCallAt_ne_empty (fn : String) (s : List Char) (v : String)
    (h : matchCallAt fn s = some v) : v ≠ "" := by
  simp only [matchCallAt] at h
  repeat' split at h
  any_goals simp at h
  cases h
  intro hv
  have hdata := congrArg String.data hv
  simp_all

lemma matchVarAt_some (s : List Char) (r : String × String)
    (h : matchVarAt s = some r) :
    ∃ m, ¬ (matchCallAt "useTranslations" (s.drop m) = none ∧
            matchCallAt "getTranslations" (s.drop m) = none) := by
  unfold matchVarAt at h
  cases hp : parseVarHead s with
  | none => rw [hp] at h; simp at h
  | some p =>
    rw [hp] at h
    simp only [Option.bind] at h
    refine ⟨p.2, ?_⟩
    rintro ⟨hu, hg⟩
    rw [hu, hg] at h
    simp at h

lemma matchDestructAt_some (s : List Char) (r : String × String)
    (h : matchDestructAt s = some r) :
    ∃ m, ¬ (matchCallAt "useTranslations" (s.drop m) = none ∧
            matchCallAt "getTranslations" (s.drop m) = none) := by
  unfold matchDestructAt at h
  cases hp : parseDestructHead s with
  | none => rw [hp] at h; simp at h
  | some p =>
    rw [hp] at h
    simp only [Option.bind] at h
    refine ⟨p.2, ?_⟩
    rintro ⟨hu, hg⟩
    rw [hu, hg] at h
    simp at h

lemma varAssignmentMatch_none (l : String)
    (h1 : useTranslationsMatch l = none) (h2 : getTranslationsMatch l = none) :
    varAssignmentMatch l = none := by
  cases hv : varAssignmentMatch l with
  | none => rfl
  | some r =>
    exfalso
    obtain ⟨n, hn⟩ := scanFirst_some _ _ _ hv
    obtain ⟨m, hm⟩ := matchVarAt_some _ _ hn
    rw [List.drop_drop] at hm
    exact hm ⟨scanFirst_none _ _ h1 (matchCallAt_nil _) (n + m),
              scanFirst_none _ _ h2 (matchCallAt_nil _) (n + m)⟩

lemma destructuredMatch_none (l : String)
    (h1 : useTranslationsMatch l = none) (h2 : getTranslationsMatch l = none) :
    destructuredMatch l = none := by
  cases hv : destructuredMatch l with
  | none => rfl
  | some r =>
    exfalso
    obtain ⟨n, hn⟩ := scanFirst_some _ _ _ hv
    obtain ⟨m, hm⟩ := matchDestructAt_some _ _ hn
    rw [List.drop_drop] at hm
    exact hm ⟨scanFirst_none _ _ h1 (matchCallAt_nil _) (n + m),
              scanFirst_none _ _ h2 (matchCallAt_nil _) (n + m)⟩

lemma useTranslationsMatch_ne_empty (l v : String)
    (h : useTranslationsMatch l = some v) : v ≠ "" := by
  obtain ⟨n, hn⟩ := scanFirst_some _ _ _ h
  exact matchCallAt_ne_empty _ _ _ hn

lemma applyEmit_currentNamespace (f : String) (n : Nat) (st : ScanState)
    (m : String × String) :
    (applyEmit f n st m).currentNamespace = st.currentNamespace := by
  unfold applyEmit
  cases emitForMatch f n st.currentNamespace st.translationVars m <;> rfl

lemma applyEmit_translationVars (f : String) (n : Nat) (st : ScanState)
    (m : String × String) :
    (applyEmit f n st m).translationVars = st.translationVars := by
  unfold applyEmit
  cases emitForMatch f n st.currentNamespace st.translationVars m <;> rfl

lemma processSpan_currentNamespace (f : String) (n : Nat) (st : ScanState) (raw : String) :
    (processSpan f n st raw).currentNamespace = st.currentNamespace := by
  simp only [processSpan]
  split
  · rfl
  · split <;> rfl

lemma processSpan_used (f : String) (n : Nat) (st : ScanState) (raw : String) :
    (processSpan f n st raw).used = st.used := by
  simp only [processSpan]
  split
  · rfl
  · split <;> rfl

lemma foldl_applyEmit_currentNamespace (f : String) (n : Nat)
    (ms : List (String × String)) :
    ∀ st : ScanState, (ms.foldl (applyEmit f n) st).currentNamespace =
      st.currentNamespace := by
  induction ms with
  | nil => intro st; rfl
  | cons m rest ih =>
    intro st
    rw [List.foldl_cons, ih, applyEmit_currentNamespace]

lemma foldl_processSpan_currentNamespace (f : String) (n : Nat) (rs : List String) :
    ∀ st : ScanState, (rs.foldl (processSpan f n) st).currentNamespace =
      st.currentNamespace := by
  induction rs with
  | nil => intro st; rfl
  | cons r rest ih =>
    intro st
    rw [List.foldl_cons, ih, processSpan_currentNamespace]

lemma foldl_processSpan_used (f : String) (n : Nat) (rs : List String) :
    ∀ st : ScanState, (rs.foldl (processSpan f n) st).used = st.used := by
  induction rs with
  | nil => intro st; rfl
  | cons r rest ih =>
    intro st
    rw [List.foldl_cons, ih, processSpan_used]

lemma processLine_preserves_namespace (f : String) (st : ScanState) (n : Nat) (l : String)
    (h1 : useTranslationsMatch l = none) (h2 : getTranslationsMatch l = none) :
    (processLine f st n l).currentNamespace = st.currentNamespace := by
  unfold processLine
  rw [h1, h2]
  cases varAssignmentMatch l with
  | some p => rfl
  | none =>
    cases destructuredMatch l with
    | some p => rfl
    | none =>
      simp only
      rw [foldl_processSpan_currentNamespace, foldl_applyEmit_currentNamespace,
        foldl_applyEmit_currentNamespace]

lemma processLine_no_binding (f : String) (st : ScanState) (n : Nat) (l : String)
    (h1 : useTranslationsMatch l = none) (h2 : getTranslationsMatch l = none)
    (h3 : varAssignmentMatch l = none) (h4 : destructuredMatch l = none) :
    processLine f st n l =
      (hardcodedMatches l).foldl (processSpan f n)
        ((extendedMatches l).foldl (applyEmit f n)
          ((genericMatches l).foldl (applyEmit f n) st)) := by
  unfold processLine
  rw [h1, h2, h3, h4]

lemma emitForMatch_shape (f : String) (n : Nat) (ns : String)
    (vars : List (String × String)) (m : String × String) (r : Translation)
    (h : emitForMatch f n ns vars m = some r) : r = usedRecord f n r.Key := by
  simp only [emitForMatch] at h
  repeat' split at h
  any_goals simp at h
  all_goals (subst h; rfl)

lemma foldl_applyEmit_lookup (f : String) (n : Nat) (fk : String)
    (ms : List (String × String)) :
    ∀ st : ScanState,
      (st.used.lookup fk = some (usedRecord f n fk) ∨
        ∃ m ∈ ms, ∃ r, emitForMatch f n st.currentNamespace st.translationVars m =
          some r ∧ r.Key = fk) →
      (ms.foldl (applyEmit f n) st).used.lookup fk = some (usedRecord f n fk) := by
  induction ms with
  | nil =>
    intro st h
    rcases h with h | ⟨m, hm, _⟩
    · exact h
    · exact absurd hm (List.not_mem_nil m)
  | cons m0 rest ih =>
    intro st h
    rw [List.foldl_cons]
    apply ih
    rcases h with h | ⟨m, hm, r, hr, hrk⟩
    · left
      unfold applyEmit
      cases hemit : emitForMatch f n st.currentNamespace st.translationVars m0 with
      | none => exact h
      | some r0 =>
        by_cases hk : r0.Key = fk
        · have hshape := emitForMatch_shape f n _ _ _ _ hemit
          simp only
          rw [hk, lookup_mapInsert_self]
          exact congrArg some (hshape.trans (by rw [hk]))
        · simp only
          rw [lookup_mapInsert_ne _ _ _ _ (fun hh => hk hh.symm)]
          exact h
    · rcases List.mem_cons.mp hm with heq | hm'
      · subst heq
        left
        unfold applyEmit
        rw [hr]
        have hshape := emitForMatch_shape f n _ _ _ _ hr
        simp only
        rw [← hrk, lookup_mapInsert_self]
        exact congrArg some hshape
      · right
        refine ⟨m, hm', r, ?_, hrk⟩
        rw [applyEmit_currentNamespace, applyEmit_translationVars]
        exact hr

lemma runLines_append (f : String) (as bs : List String) :
    ∀ (st : ScanState) (n : Nat),
      runLines f st n (as ++ bs) = runLines f (runLines f st n as) (n + as.length) bs := by
  induction as with
  | nil => intro st n; simp [runLines]
  | cons a rest ih =>
    intro st n
    simp only [List.cons_append, runLines, List.append_eq]
    rw [ih]
    congr 1
    simp only [List.length_cons]
    omega

lemma runLines_preserves_namespace (f : String) (ls : List String)
    (h : ∀ l ∈ ls, useTranslationsMatch l = none ∧ getTranslationsMatch l = none) :
    ∀ (st : ScanState) (n : Nat),
      (runLines f st n ls).currentNamespace = st.currentNamespace := by
  induction ls with
  | nil => intro st n; rfl
  | cons a rest ih =>
    intro st n
    simp only [runLines]
    rw [ih (fun l hl => h l (List.mem_cons_of_mem a hl))]
    exact processLine_preserves_namespace f st n a
      (h a (List.mem_cons_self a rest)).1 (h a (List.mem_cons_self a rest)).2

/-- C4: after a line matching `useTranslations("NS")`, a bare `t("key")` call
with a nonempty dot-free literal key on a later line resolves to the
fully-qualified key `NS.key`, provided no intermediate line rebinds the
default namespace (no line in between matches a direct
`useTranslations`/`getTranslations` pattern, which is what rebinds it — and
the line of the call itself matches none): right after that line the used map
holds `NS.key` with the translation_call record of that line. -/
theorem runLines_default_namespace_resolution
    (filePath NS key li lk : String) (mid : List String)
    (hli : useTranslationsMatch li = some NS)
    (hmid : ∀ l ∈ mid, useTranslationsMatch l = none ∧ getTranslationsMatch l = none)
    (hk1 : useTranslationsMatch lk = none) (hk2 : getTranslationsMatch lk = none)
    (hmem : ("t", key) ∈ genericMatches lk)
    (hne : key ≠ "") (hdot : strContainsChar key '.' = false) :
    ∀ (st : ScanState) (n : Nat),
      (runLines filePath st n (li :: (mid ++ [lk]))).used.lookup (NS ++ "." ++ key) =
        some (usedRecord filePath (n + mid.length + 1) (NS ++ "." ++ key)) := by
  intro st n
  have hNS : NS ≠ "" := useTranslationsMatch_ne_empty li NS hli
  have hvars3 : varAssignmentMatch lk = none := varAssignmentMatch_none lk hk1 hk2
  have hvars4 : destructuredMatch lk = none := destructuredMatch_none lk hk1 hk2
  simp only [runLines]
  rw [processLine_useT filePath st n li NS hli]
  rw [runLines_append]
  have hns2 : (runLines filePath { st with currentNamespace := NS } (n + 1) mid).currentNamespace
      = NS := by
    rw [runLines_preserves_namespace filePath mid hmid]
  simp only [runLines]
  rw [processLine_no_binding filePath _ _ lk hk1 hk2 hvars3 hvars4]
  rw [foldl_processSpan_used]
  have hline : n + 1 + mid.length = n + mid.length + 1 := by omega
  rw [hline]
  apply foldl_applyEmit_lookup
  left
  apply foldl_applyEmit_lookup
  right
  refine ⟨("t", key), hmem,
    usedRecord filePath (n + mid.length + 1) (NS ++ "." ++ key), ?_, rfl⟩
  rw [hns2]
  simp [emitForMatch, hne, hdot, hNS, usedRecord]

/-- Witness for C4: the two-line file `useTranslations("NS")` then
`t("key")` yields the record for `NS.key` at line 2. -/
theorem runLines_default_namespace_resolution_witness :
    (runLines "f.tsx" initState 1
        ("useTranslations(\"NS\")" :: (([] : List String) ++ ["t(\"key\")"]))).used.lookup
        ("NS" ++ "." ++ "key") =
      some (usedRecord "f.tsx" (1 + List.length ([] : List String) + 1)
        ("NS" ++ "." ++ "key")) :=
  runLines_default_namespace_resolution "f.tsx" "NS" "key" "useTranslations(\"NS\")"
    "t(\"key\")" [] (by decide) (by simp) (by decide) (by decide) (by decide)
    (by decide) (by decide) initState 1
